import Mathlib

/-!
Verification of the FSM module (src/lib/FSM.js): a configurable finite-state
machine with eager construction-time validation and a transition engine
(`handleEvent`) that fires caller-supplied callbacks in a fixed order.

Modelling conventions (shallow embedding of the JavaScript source):
* JS objects used as string-keyed maps become association lists
  `List (String × _)`; lookup is first-match (JS object keys are unique).
* A field that may be absent or `null` becomes an `Option`. In particular a
  state node may itself be `null` in the configuration (`Option StateDef`),
  which makes the source throw a `TypeError` when `init` reads `state.events`;
  fallible operations therefore return `Except Unit _` whose `.error ()`
  stands for the thrown JS `TypeError`.
* Caller-supplied callbacks are opaque: `CbVal.func i` is a function value
  (identified by a label `i` so invocation order can be observed) and
  `CbVal.nonFunc` is a present-but-not-callable value (a truthy non-function),
  as distinguished by lodash `_.isFunction`.
* JS property access stringifies non-string keys: `states[null]` and
  `states[undefined]` read the keys "null" and "undefined". `jsKey` (for the
  `current` variable, initialised to `null`) and `jsKeyU` (for a missing
  `toState`, i.e. `undefined`) make this coercion explicit.
* `handleEvent` additionally returns the list of callback invocations it
  performed, each paired with the value of `current` at the moment of the
  call, so that callback-ordering properties can be stated.
-/

namespace FSM

/-- Status codes exported by the module (src/lib/FSM.js lines 238-246). -/
inductive Status where
  | OK
  | ERROR_ILLEGAL_EVENT
  | ERROR_INVALID_START_STATE
  | ERROR_NO_VALID_STATES
  | ERROR_INVALID_EVENT_NODE
  | ERROR_INVALID_TARGET_STATE
  | ERROR_INVALID_TRANSISTION_FUNCTION
  | ERROR_INVALID_ACTION_FUNCTION
  | ERROR_IMPROPERLY_INITIALIZED
deriving DecidableEq, Repr

/-- Value stored in a callback slot of the configuration: a function value
(labelled so invocations can be traced) or a truthy non-function value. -/
inductive CbVal where
  | func (id : Nat)
  | nonFunc
deriving DecidableEq, Repr

/-- The `actions` node of a state: `onEnter` / `onExit` slots. -/
structure ActionsDef where
  onEnter : Option CbVal
  onExit : Option CbVal
deriving DecidableEq, Repr

/-- An event node: target state (`none` when absent or not a string) and the
optional `onBefore` / `onAfter` transition callbacks. -/
structure EventDef where
  toState : Option String
  onBefore : Option CbVal
  onAfter : Option CbVal
deriving DecidableEq, Repr

/-- A state node: its `events` mapping (absent collapses to the empty list,
which the source treats identically) and optional `actions` node. An event
value of `none` models a falsy (e.g. `null`) event node. -/
structure StateDef where
  events : List (String × Option EventDef)
  actions : Option ActionsDef
deriving DecidableEq, Repr

/-- A user configuration: `startState` (`none` when absent or not a string)
and the `states` mapping (`none` when absent/falsy). A state value of `none`
models a `null` state node. -/
structure Config where
  startState : Option String
  states : Option (List (String × Option StateDef))
deriving DecidableEq, Repr

/-- First-match association-list lookup, mirroring JS object property access
on string keys. -/
def alookup {α : Type} : List (String × α) → String → Option α
  | [], _ => none
  | (k, v) :: rest, key => if k = key then some v else alookup rest key

/-- Key used when JS reads a property with the value of `current`: the value
`null` is coerced to the string key "null". -/
def jsKey : Option String → String
  | some s => s
  | none => "null"

/-- Key used when JS reads a property with a `toState` value that is absent:
`undefined` is coerced to the string key "undefined". -/
def jsKeyU : Option String → String
  | some s => s
  | none => "undefined"

/-- Truthiness of `states[k]` : the key is present and its value is not null. -/
def truthyState (sts : List (String × Option StateDef)) (k : String) : Bool :=
  match alookup sts k with
  | some (some _) => true
  | _ => false

/-- Key-presence test on `states`, mirroring lodash `_.has(states, k)` (a key
with a null value still counts as present). -/
def hasStateKey (sts : List (String × Option StateDef)) (k : String) : Bool :=
  (alookup sts k).isSome

/-- Lodash `_.isFunction` applied to an optional callback slot. -/
def isFunctionCb : Option CbVal → Bool
  | some (.func _) => true
  | _ => false

/-- The validation test `slot && !_.isFunction(slot)` : the slot holds a
truthy value that is not a function. -/
def badCb : Option CbVal → Bool
  | some .nonFunc => true
  | _ => false

/-- Accumulated state of the `init` closure: the six error flags, the
`current` variable and the `initStatus` variable (src lines 46-57). -/
structure InitAcc where
  hasInvalidStartState : Bool
  hasInvalidStateNodes : Bool
  hasInvalidEventNode : Bool
  hasInvalidToState : Bool
  hasInvalidTransitionFunction : Bool
  hasInvalidActionFunction : Bool
  current : Option String
  initStatus : Status
deriving DecidableEq, Repr

/-- Body of the inner `_.each(events, ...)` loop of `init` (src lines
109-137): flags a falsy event node, a present-but-not-callable
`onBefore`/`onAfter`, and a missing or undeclared `toState`. -/
def procEvent (sts : List (String × Option StateDef)) (acc : InitAcc)
    (e : String × Option EventDef) : InitAcc :=
  match e.2 with
  | none =>
    { acc with initStatus := .ERROR_INVALID_EVENT_NODE, hasInvalidEventNode := true }
  | some ev =>
    let f := acc.hasInvalidTransitionFunction || badCb ev.onBefore || badCb ev.onAfter
    let acc1 := { acc with
      hasInvalidTransitionFunction := f,
      initStatus := if f then .ERROR_INVALID_TRANSISTION_FUNCTION else acc.initStatus }
    match ev.toState with
    | none =>
      { acc1 with hasInvalidToState := true, initStatus := .ERROR_INVALID_TARGET_STATE }
    | some t =>
      if truthyState sts t then acc1
      else { acc1 with hasInvalidToState := true, initStatus := .ERROR_INVALID_TARGET_STATE }

/-- Body of the outer `_.each(states, ...)` loop of `init` (src lines 85-139).
A null state node makes the source throw (`state.events` on `null`), hence the
`Except`. A state with no events is only warned about and entirely skipped;
otherwise the `actions` node is checked and then every event is inspected. -/
def procState (sts : List (String × Option StateDef)) (acc : InitAcc)
    (s : String × Option StateDef) : Except Unit InitAcc :=
  match s.2 with
  | none => .error ()
  | some st =>
    if st.events.length < 1 then .ok acc
    else
      let acc1 :=
        match st.actions with
        | none => acc
        | some a =>
          let f := acc.hasInvalidActionFunction || badCb a.onEnter || badCb a.onExit
          { acc with
            hasInvalidActionFunction := f,
            initStatus := if f then .ERROR_INVALID_ACTION_FUNCTION else acc.initStatus }
      .ok (st.events.foldl (procEvent sts) acc1)

/-- Sequential processing of the state list by `procState`, propagating the
thrown `TypeError` of a null state node. -/
def initLoop (sts : List (String × Option StateDef)) :
    InitAcc → List (String × Option StateDef) → Except Unit InitAcc
  | acc, [] => .ok acc
  | acc, s :: rest =>
    match procState sts acc s with
    | .error e => .error e
    | .ok acc1 => initLoop sts acc1 rest

/-- Initial accumulator: all flags false, `current = null`, `initStatus = OK`. -/
def blankAcc : InitAcc :=
  ⟨false, false, false, false, false, false, none, .OK⟩

/-- The whole `init` closure (src lines 50-148): start-state check, empty
`states` check, then the per-state loop. Note the JS coercion in the
start-state check: a non-string `startState` is replaced by `null`, and
`states[null]` reads the key "null". -/
def runInit (cfg : Config) : Except Unit InitAcc :=
  match cfg.states with
  | none =>
    .ok { blankAcc with initStatus := .ERROR_NO_VALID_STATES, hasInvalidStateNodes := true }
  | some sts =>
    let acc1 :=
      if truthyState sts (jsKey cfg.startState) then
        { blankAcc with current := cfg.startState }
      else
        { blankAcc with hasInvalidStartState := true,
                        initStatus := .ERROR_INVALID_START_STATE }
    let acc2 :=
      if sts.length < 1 then
        { acc1 with initStatus := .ERROR_NO_VALID_STATES, hasInvalidStateNodes := true }
      else acc1
    initLoop sts acc2 sts

/-- The conjunction computed at src lines 145-147. -/
def isInternalValidOf (a : InitAcc) : Bool :=
  !a.hasInvalidStartState && !a.hasInvalidStateNodes && !a.hasInvalidEventNode
    && !a.hasInvalidToState && !a.hasInvalidActionFunction
    && !a.hasInvalidTransitionFunction

/-- A constructed machine: its private deep copy of the configuration, the
`isInternalValid` flag, the `current` variable and the `initStatus` code. -/
structure Machine where
  config : Config
  isInternalValid : Bool
  current : Option String
  initStatus : Status
deriving DecidableEq, Repr

/-- The factory `exports.newFSM` (src lines 42-234): runs `init` and returns
the machine, or propagates the `TypeError` thrown on a null state node. -/
def newFSM (cfg : Config) : Except Unit Machine :=
  match runInit cfg with
  | .error e => .error e
  | .ok a => .ok ⟨cfg, isInternalValidOf a, a.current, a.initStatus⟩

/-- Accessor `status()` (src lines 210-212). -/
def Machine.status (m : Machine) : Status := m.initStatus

/-- Accessor `currentState()` (src lines 215-217). -/
def Machine.currentState (m : Machine) : Option String := m.current

/-- Accessor `isValid()` (src lines 220-222): `initStatus === OK`. -/
def Machine.isValid (m : Machine) : Bool :=
  match m.initStatus with
  | .OK => true
  | _ => false

/-- Method `canHandleEvent(name)` (src lines 201-207). When the machine is
internally valid it reads `config.states[current].events`; on a machine whose
`current` does not name a non-null state this property chain would throw,
modelled by `.error ()`. -/
def Machine.canHandleEvent (m : Machine) (name : String) : Except Unit Bool :=
  if m.isInternalValid = false then .ok false
  else
    match m.config.states with
    | none => .error ()
    | some sts =>
      match alookup sts (jsKey m.current) with
      | some (some st) => .ok (alookup st.events name).isSome
      | _ => .error ()

/-- Record of one callback invocation: the callback's label and the value the
`current` variable (i.e. `currentState()`) held at the moment of the call. -/
structure TraceEntry where
  cb : Nat
  cur : Option String
deriving DecidableEq, Repr

/-- The call-time check `_.isFunction(slot) && slot()` : invoke the slot only
when it holds a function, recording `current` at the call. -/
def fireCb (o : Option CbVal) (cur : Option String) : List TraceEntry :=
  match o with
  | some (.func i) => [⟨i, cur⟩]
  | _ => []

/-- Method `handleEvent(name)` (src lines 157-198). Returns the status code,
the machine after the call, and the list of callback invocations performed
(in order). The `.error ()` branches are the property accesses that would
throw on a malformed machine (`eventNode.toState` on a null event node,
`[...]['actions']` on a null target state); they are unreachable for machines
produced by `newFSM`. -/
def Machine.handleEvent (m : Machine) (name : String) :
    Except Unit (Status × Machine × List TraceEntry) :=
  if m.isInternalValid = false then
    .ok (.ERROR_IMPROPERLY_INITIALIZED, m, [])
  else
    match m.canHandleEvent name with
    | .error e => .error e
    | .ok false => .ok (.ERROR_ILLEGAL_EVENT, m, [])
    | .ok true =>
      match m.config.states with
      | none => .error ()
      | some sts =>
        match alookup sts (jsKey m.current) with
        | some (some curSt) =>
          match alookup curSt.events name with
          | some (some ev) =>
            if hasStateKey sts (jsKeyU ev.toState) then
              match alookup sts (jsKeyU ev.toState) with
              | some (some tgtSt) =>
                let curActions := curSt.actions.getD ⟨none, none⟩
                let tgtActions := tgtSt.actions.getD ⟨none, none⟩
                let tr :=
                  fireCb ev.onBefore m.current ++ fireCb curActions.onExit m.current
                    ++ fireCb tgtActions.onEnter ev.toState
                    ++ fireCb ev.onAfter ev.toState
                .ok (.OK, { m with current := ev.toState }, tr)
              | _ => .error ()
            else .ok (.ERROR_INVALID_TARGET_STATE, m, [])
          | _ => .error ()
        | _ => .error ()

/-- Repeated `handleEvent` calls, collecting the status of each call. -/
def runEvents : Machine → List String → Except Unit (Machine × List Status)
  | m, [] => .ok (m, [])
  | m, e :: rest =>
    match m.handleEvent e with
    | .error u => .error u
    | .ok (st, m1, _) =>
      match runEvents m1 rest with
      | .error u => .error u
      | .ok (mf, stats) => .ok (mf, st :: stats)

/-- The target state of an event registered on the machine's current state:
`some T` when `name` is a key of `config.states[current].events` whose node is
non-null and whose `toState` is the string `T`. -/
def registeredTarget (m : Machine) (name : String) : Option String :=
  match m.config.states with
  | none => none
  | some sts =>
    match alookup sts (jsKey m.current) with
    | some (some st) =>
      match alookup st.events name with
      | some (some ev) => ev.toState
      | _ => none
    | _ => none

/-- Key-presence of `name` in the current state's events mapping (the test
`canHandleEvent` performs once validity is established). -/
def eventRegistered (m : Machine) (name : String) : Bool :=
  match m.config.states with
  | none => false
  | some sts =>
    match alookup sts (jsKey m.current) with
    | some (some st) => (alookup st.events name).isSome
    | _ => false

end FSM

namespace FSM

/-- A successful association-list lookup yields a member of the list. -/
theorem mem_of_alookup {α : Type} {l : List (String × α)} {k : String} {v : α}
    (h : alookup l k = some v) : (k, v) ∈ l := by
  induction l with
  | nil => simp [alookup] at h
  | cons p rest ih =>
    rcases p with ⟨k1, v1⟩
    by_cases hk : k1 = k
    · subst hk
      simp [alookup] at h
      subst h
      exact List.mem_cons_self _ _
    · simp [alookup, hk] at h
      exact List.mem_cons_of_mem _ (ih h)

/-- The inner event loop never touches `current`, the start-state flag, the
state-nodes flag or the action-function flag. -/
theorem procEvent_preserved (sts : List (String × Option StateDef)) (acc : InitAcc)
    (e : String × Option EventDef) :
    (procEvent sts acc e).current = acc.current
    ∧ (procEvent sts acc e).hasInvalidStartState = acc.hasInvalidStartState
    ∧ (procEvent sts acc e).hasInvalidStateNodes = acc.hasInvalidStateNodes
    ∧ (procEvent sts acc e).hasInvalidActionFunction = acc.hasInvalidActionFunction := by
  rcases e with ⟨n, _ | ev⟩
  · exact ⟨rfl, rfl, rfl, rfl⟩
  · rcases ev with ⟨ts, ob, oa⟩
    simp only [procEvent]
    cases ts
    · exact ⟨rfl, rfl, rfl, rfl⟩
    · dsimp only
      split
      · exact ⟨rfl, rfl, rfl, rfl⟩
      · exact ⟨rfl, rfl, rfl, rfl⟩

/-- Preservation of a property through a fold of the event loop. -/
theorem foldl_procEvent_mono (sts : List (String × Option StateDef))
    (P : InitAcc → Prop)
    (hmono : ∀ acc q, P acc → P (procEvent sts acc q)) :
    ∀ (l : List (String × Option EventDef)) (acc : InitAcc),
      P acc → P (List.foldl (procEvent sts) acc l) := by
  intro l
  induction l with
  | nil => intro acc h; simpa using h
  | cons q rest ih =>
    intro acc h
    simpa using ih _ (hmono acc q h)

/-- If some member of the event list triggers the property and the event loop
preserves it, the fold establishes it. -/
theorem foldl_procEvent_mem (sts : List (String × Option StateDef))
    (P : InitAcc → Prop)
    (hmono : ∀ acc q, P acc → P (procEvent sts acc q))
    (p : String × Option EventDef)
    (htrig : ∀ acc, P (procEvent sts acc p)) :
    ∀ (l : List (String × Option EventDef)) (acc : InitAcc),
      p ∈ l → P (List.foldl (procEvent sts) acc l) := by
  intro l
  induction l with
  | nil => intro acc h; simp at h
  | cons q rest ih =>
    intro acc h
    rcases List.mem_cons.mp h with h1 | h1
    · subst h1
      simpa using foldl_procEvent_mono sts P hmono rest _ (htrig acc)
    · simpa using ih _ h1

/-- Preservation of a property through the state loop, provided each state
step preserves it. -/
theorem initLoop_mono (sts : List (String × Option StateDef))
    (P : InitAcc → Prop)
    (hmono : ∀ acc s acc1, procState sts acc s = .ok acc1 → P acc → P acc1) :
    ∀ (l : List (String × Option StateDef)) (acc a : InitAcc),
      initLoop sts acc l = .ok a → P acc → P a := by
  intro l
  induction l with
  | nil =>
    intro acc a h hp
    simp [initLoop] at h
    exact h ▸ hp
  | cons s rest ih =>
    intro acc a h hp
    simp only [initLoop] at h
    cases hps : procState sts acc s with
    | error u => rw [hps] at h; exact absurd h (by simp)
    | ok acc1 =>
      rw [hps] at h
      exact ih acc1 a h (hmono acc s acc1 hps hp)

/-- If some member of the state list triggers the property and the state loop
preserves it, a successful loop establishes it. -/
theorem initLoop_mem (sts : List (String × Option StateDef))
    (P : InitAcc → Prop)
    (hmono : ∀ acc s acc1, procState sts acc s = .ok acc1 → P acc → P acc1)
    (s0 : String × Option StateDef)
    (htrig : ∀ acc acc1, procState sts acc s0 = .ok acc1 → P acc1) :
    ∀ (l : List (String × Option StateDef)) (acc a : InitAcc),
      s0 ∈ l → initLoop sts acc l = .ok a → P a := by
  intro l
  induction l with
  | nil => intro acc a h; simp at h
  | cons s rest ih =>
    intro acc a hmem h
    simp only [initLoop] at h
    cases hps : procState sts acc s with
    | error u => rw [hps] at h; exact absurd h (by simp)
    | ok acc1 =>
      rw [hps] at h
      rcases List.mem_cons.mp hmem with h1 | h1
      · subst h1
        exact initLoop_mono sts P hmono rest acc1 a h (htrig acc acc1 hps)
      · exact ih acc1 a h1 h

end FSM

namespace FSM

/-- Synchronisation invariant of `init` : the status code is `OK` exactly when
no error flag has been raised. -/
def SyncP (a : InitAcc) : Prop :=
  a.initStatus = Status.OK ↔ isInternalValidOf a = true

/-- The event loop preserves the synchronisation invariant. -/
theorem procEvent_sync (sts : List (String × Option StateDef)) (acc : InitAcc)
    (e : String × Option EventDef) (h : SyncP acc) : SyncP (procEvent sts acc e) := by
  rcases e with ⟨n, _ | ev⟩
  · simp [SyncP, procEvent, isInternalValidOf]
  · rcases ev with ⟨ts, ob, oa⟩
    simp only [procEvent]
    by_cases hf : (acc.hasInvalidTransitionFunction || badCb ob || badCb oa) = true
    · cases ts
      · simp [SyncP, hf, isInternalValidOf]
      · dsimp only
        split
        · simp [SyncP, hf, isInternalValidOf]
        · simp [SyncP, hf, isInternalValidOf]
    · have hsplit : acc.hasInvalidTransitionFunction = false ∧ badCb ob = false ∧ badCb oa = false := by
        rcases Bool.or_eq_false_iff.mp (Bool.eq_false_iff.mpr hf) with ⟨h1, h3⟩
        rcases Bool.or_eq_false_iff.mp h1 with ⟨h1, h2⟩
        exact ⟨h1, h2, h3⟩
      rcases hsplit with ⟨h1, h2, h3⟩
      cases ts
      · simp [SyncP, h1, h2, h3, isInternalValidOf]
      · dsimp only
        split
        · simp only [h1, h2, h3, Bool.or_false, Bool.false_or, if_false]
          simpa [SyncP, isInternalValidOf, h1] using h
        · simp [SyncP, h1, h2, h3, isInternalValidOf]

/-- The state loop body preserves the synchronisation invariant. -/
theorem procState_sync (sts : List (String × Option StateDef)) (acc : InitAcc)
    (s : String × Option StateDef) (acc1 : InitAcc)
    (hok : procState sts acc s = .ok acc1) (h : SyncP acc) : SyncP acc1 := by
  rcases s with ⟨n, _ | st⟩
  · simp [procState] at hok
  · simp only [procState] at hok
    split at hok
    · cases hok
      exact h
    · have hfold :
          ∀ acc2 : InitAcc, SyncP acc2 →
            SyncP (List.foldl (procEvent sts) acc2 st.events) :=
        fun acc2 h2 =>
          foldl_procEvent_mono sts SyncP (fun a q ha => procEvent_sync sts a q ha) st.events acc2 h2
      cases hacts : st.actions with
      | none =>
        rw [hacts] at hok
        cases hok
        exact hfold acc h
      | some a =>
        rw [hacts] at hok
        dsimp only at hok
        cases hok
        apply hfold
        by_cases hf : (acc.hasInvalidActionFunction || badCb a.onEnter || badCb a.onExit) = true
        · simp [SyncP, hf, isInternalValidOf]
        · have hsplit : acc.hasInvalidActionFunction = false ∧ badCb a.onEnter = false ∧ badCb a.onExit = false := by
            rcases Bool.or_eq_false_iff.mp (Bool.eq_false_iff.mpr hf) with ⟨h1, h3⟩
            rcases Bool.or_eq_false_iff.mp h1 with ⟨h1, h2⟩
            exact ⟨h1, h2, h3⟩
          rcases hsplit with ⟨h1, h2, h3⟩
          simp only [h1, h2, h3, Bool.or_false, Bool.false_or, if_false]
          simpa [SyncP, isInternalValidOf, h1] using h

/-- A successful run of `init` satisfies the synchronisation invariant: the
recorded status is `OK` exactly when the `isInternalValid` conjunction holds. -/
theorem runInit_sync (cfg : Config) (a : InitAcc) (h : runInit cfg = .ok a) : SyncP a := by
  unfold runInit at h
  cases hsts : cfg.states with
  | none =>
    rw [hsts] at h
    cases h
    simp [SyncP, blankAcc, isInternalValidOf]
  | some sts =>
    rw [hsts] at h
    dsimp only at h
    apply initLoop_mono sts SyncP
      (fun acc s acc1 hok hp => procState_sync sts acc s acc1 hok hp) sts _ a h
    split
    · split
      · simp [SyncP, blankAcc, isInternalValidOf]
      · simp [SyncP, blankAcc, isInternalValidOf]
    · split
      · simp [SyncP, blankAcc, isInternalValidOf]
      · simp [SyncP, blankAcc, isInternalValidOf]

end FSM

namespace FSM

/-- The state loop body never touches `current`, the start-state flag or the
state-nodes flag. -/
theorem procState_preserved (sts : List (String × Option StateDef)) (acc : InitAcc)
    (s : String × Option StateDef) (acc1 : InitAcc)
    (hok : procState sts acc s = .ok acc1) :
    acc1.current = acc.current
    ∧ acc1.hasInvalidStartState = acc.hasInvalidStartState
    ∧ acc1.hasInvalidStateNodes = acc.hasInvalidStateNodes := by
  rcases s with ⟨n, _ | st⟩
  · simp [procState] at hok
  · simp only [procState] at hok
    split at hok
    · cases hok
      exact ⟨rfl, rfl, rfl⟩
    · have hfold :
          ∀ acc2 : InitAcc,
            (List.foldl (procEvent sts) acc2 st.events).current = acc2.current
            ∧ (List.foldl (procEvent sts) acc2 st.events).hasInvalidStartState
                = acc2.hasInvalidStartState
            ∧ (List.foldl (procEvent sts) acc2 st.events).hasInvalidStateNodes
                = acc2.hasInvalidStateNodes := by
        intro acc2
        induction st.events generalizing acc2 with
        | nil => exact ⟨rfl, rfl, rfl⟩
        | cons q rest ih =>
          rcases ih (procEvent sts acc2 q) with ⟨i1, i2, i3⟩
          rcases procEvent_preserved sts acc2 q with ⟨p1, p2, p3, _⟩
          exact ⟨by simpa [p1] using i1, by simpa [p2] using i2, by simpa [p3] using i3⟩
      cases hacts : st.actions with
      | none =>
        rw [hacts] at hok
        cases hok
        exact hfold acc
      | some a =>
        rw [hacts] at hok
        dsimp only at hok
        cases hok
        rcases hfold { acc with
            hasInvalidActionFunction :=
              acc.hasInvalidActionFunction || badCb a.onEnter || badCb a.onExit,
            initStatus :=
              if acc.hasInvalidActionFunction || badCb a.onEnter || badCb a.onExit then
                .ERROR_INVALID_ACTION_FUNCTION
              else acc.initStatus } with ⟨i1, i2, i3⟩
        exact ⟨i1, i2, i3⟩

/-- The state loop never touches `current`, the start-state flag or the
state-nodes flag. -/
theorem initLoop_preserved (sts : List (String × Option StateDef)) :
    ∀ (l : List (String × Option StateDef)) (acc a : InitAcc),
      initLoop sts acc l = .ok a →
      a.current = acc.current
      ∧ a.hasInvalidStartState = acc.hasInvalidStartState
      ∧ a.hasInvalidStateNodes = acc.hasInvalidStateNodes := by
  intro l
  induction l with
  | nil =>
    intro acc a h
    simp [initLoop] at h
    subst h
    exact ⟨rfl, rfl, rfl⟩
  | cons s rest ih =>
    intro acc a h
    simp only [initLoop] at h
    cases hps : procState sts acc s with
    | error u => rw [hps] at h; exact absurd h (by simp)
    | ok acc1 =>
      rw [hps] at h
      rcases ih acc1 a h with ⟨i1, i2, i3⟩
      rcases procState_preserved sts acc s acc1 hps with ⟨p1, p2, p3⟩
      exact ⟨by rw [i1, p1], by rw [i2, p2], by rw [i3, p3]⟩

/-- Characterisation of `current` after `init` : it is still `null`, or the
start-state lookup (with the JS key coercion of a non-string `startState`)
succeeded and `current` was assigned the raw `startState` value. In the second
case the start-state flag is clear; in the first the machine has a start-state
or no-states error unless the "null"-named-state coercion applied. -/
theorem runInit_current (cfg : Config) (a : InitAcc) (h : runInit cfg = .ok a) :
    (a.current = none ∧ cfg.states = none)
    ∨ ∃ sts, cfg.states = some sts
        ∧ ((a.current = cfg.startState
              ∧ truthyState sts (jsKey cfg.startState) = true
              ∧ a.hasInvalidStartState = false)
           ∨ (a.current = none
              ∧ truthyState sts (jsKey cfg.startState) = false
              ∧ a.hasInvalidStartState = true)) := by
  unfold runInit at h
  cases hsts : cfg.states with
  | none =>
    rw [hsts] at h
    cases h
    exact Or.inl ⟨rfl, rfl⟩
  | some sts =>
    rw [hsts] at h
    dsimp only at h
    refine Or.inr ⟨sts, rfl, ?_⟩
    rcases initLoop_preserved sts sts _ a h with ⟨i1, i2, _⟩
    by_cases ht : truthyState sts (jsKey cfg.startState) = true
    · refine Or.inl ⟨?_, ht, ?_⟩
      · rw [i1]
        split
        · simp [ht, blankAcc]
        · simp [ht, blankAcc]
      · rw [i2]
        split
        · simp [ht, blankAcc]
        · simp [ht, blankAcc]
    · have ht' : truthyState sts (jsKey cfg.startState) = false := by
        simpa using ht
      refine Or.inr ⟨?_, ht', ?_⟩
      · rw [i1]
        split
        · simp [ht', blankAcc]
        · simp [ht', blankAcc]
      · rw [i2]
        split
        · simp [ht', blankAcc]
        · simp [ht', blankAcc]

end FSM

namespace FSM

/-- Well-formedness of an event entry as established by validation: the event
node is non-null and its `toState` is a string naming a truthy declared
state. -/
def eventOK (sts : List (String × Option StateDef)) (q : String × Option EventDef) : Prop :=
  ∃ ev, q.2 = some ev ∧ ∃ t, ev.toState = some t ∧ truthyState sts t = true

/-- Well-formedness of the whole state list as established by validation:
every state node is non-null and all its event entries are well-formed. -/
def statesShape (sts : List (String × Option StateDef)) : Prop :=
  ∀ p ∈ sts, ∃ st, p.2 = some st ∧ ∀ q ∈ st.events, eventOK sts q

/-- A successful state loop visited every state node without throwing, so none
of them was null. -/
theorem initLoop_ok_some (sts : List (String × Option StateDef)) :
    ∀ (l : List (String × Option StateDef)) (acc a : InitAcc),
      initLoop sts acc l = .ok a → ∀ s ∈ l, s.2.isSome := by
  intro l
  induction l with
  | nil => intro acc a _ s hs; simp at hs
  | cons s0 rest ih =>
    intro acc a h s hs
    simp only [initLoop] at h
    cases hps : procState sts acc s0 with
    | error u => rw [hps] at h; exact absurd h (by simp)
    | ok acc1 =>
      rw [hps] at h
      rcases List.mem_cons.mp hs with h1 | h1
      · subst h1
        rcases s with ⟨n, _ | st⟩
        · simp [procState] at hps
        · simp
      · exact ih acc1 a h s h1

/-- The event-node flag is monotone through the event loop body. -/
theorem procEvent_eventFlag_mono (sts : List (String × Option StateDef))
    (acc : InitAcc) (q : String × Option EventDef)
    (h : acc.hasInvalidEventNode = true) :
    (procEvent sts acc q).hasInvalidEventNode = true := by
  rcases q with ⟨n, _ | ev⟩
  · simp [procEvent]
  · rcases ev with ⟨ts, ob, oa⟩
    simp only [procEvent]
    cases ts
    · simpa using h
    · dsimp only
      split
      · simpa using h
      · simpa using h

/-- The target-state flag is monotone through the event loop body. -/
theorem procEvent_toStateFlag_mono (sts : List (String × Option StateDef))
    (acc : InitAcc) (q : String × Option EventDef)
    (h : acc.hasInvalidToState = true) :
    (procEvent sts acc q).hasInvalidToState = true := by
  rcases q with ⟨n, _ | ev⟩
  · simpa [procEvent] using h
  · rcases ev with ⟨ts, ob, oa⟩
    simp only [procEvent]
    cases ts
    · simp
    · dsimp only
      split
      · simpa using h
      · simp

/-- The event-node flag is monotone through the state loop body. -/
theorem procState_eventFlag_mono (sts : List (String × Option StateDef))
    (acc : InitAcc) (s : String × Option StateDef) (acc1 : InitAcc)
    (hok : procState sts acc s = .ok acc1)
    (h : acc.hasInvalidEventNode = true) : acc1.hasInvalidEventNode = true := by
  rcases s with ⟨n, _ | st⟩
  · simp [procState] at hok
  · simp only [procState] at hok
    split at hok
    · cases hok; exact h
    · have hfold :
          ∀ acc2 : InitAcc, acc2.hasInvalidEventNode = true →
            (List.foldl (procEvent sts) acc2 st.events).hasInvalidEventNode = true :=
        foldl_procEvent_mono sts (fun a2 => a2.hasInvalidEventNode = true)
          (fun a2 q h2 => procEvent_eventFlag_mono sts a2 q h2) st.events
      cases hacts : st.actions with
      | none => rw [hacts] at hok; cases hok; exact hfold acc h
      | some aa =>
        rw [hacts] at hok
        dsimp only at hok
        cases hok
        exact hfold _ (by simpa using h)

/-- The target-state flag is monotone through the state loop body. -/
theorem procState_toStateFlag_mono (sts : List (String × Option StateDef))
    (acc : InitAcc) (s : String × Option StateDef) (acc1 : InitAcc)
    (hok : procState sts acc s = .ok acc1)
    (h : acc.hasInvalidToState = true) : acc1.hasInvalidToState = true := by
  rcases s with ⟨n, _ | st⟩
  · simp [procState] at hok
  · simp only [procState] at hok
    split at hok
    · cases hok; exact h
    · have hfold :
          ∀ acc2 : InitAcc, acc2.hasInvalidToState = true →
            (List.foldl (procEvent sts) acc2 st.events).hasInvalidToState = true :=
        foldl_procEvent_mono sts (fun a2 => a2.hasInvalidToState = true)
          (fun a2 q h2 => procEvent_toStateFlag_mono sts a2 q h2) st.events
      cases hacts : st.actions with
      | none => rw [hacts] at hok; cases hok; exact hfold acc h
      | some aa =>
        rw [hacts] at hok
        dsimp only at hok
        cases hok
        exact hfold _ (by simpa using h)

end FSM

namespace FSM

/-- A null event node raises the event-node flag. -/
theorem procEvent_trig_null (sts : List (String × Option StateDef)) (acc : InitAcc)
    (n : String) : (procEvent sts acc (n, none)).hasInvalidEventNode = true := by
  simp [procEvent]

/-- A missing or undeclared target state raises the target-state flag. -/
theorem procEvent_trig_toState (sts : List (String × Option StateDef)) (acc : InitAcc)
    (n : String) (ev : EventDef)
    (hbad : ∀ t, ev.toState = some t → truthyState sts t = false) :
    (procEvent sts acc (n, some ev)).hasInvalidToState = true := by
  rcases ev with ⟨ts, ob, oa⟩
  simp only [procEvent]
  cases hts : ts with
  | none => simp
  | some t =>
    dsimp only
    have := hbad t (by simp [hts])
    simp [this]

/-- Unfolding of `isInternalValid` : validity means all six flags are clear. -/
theorem isInternalValidOf_flags (a : InitAcc) (h : isInternalValidOf a = true) :
    a.hasInvalidStartState = false ∧ a.hasInvalidStateNodes = false
    ∧ a.hasInvalidEventNode = false ∧ a.hasInvalidToState = false
    ∧ a.hasInvalidActionFunction = false ∧ a.hasInvalidTransitionFunction = false := by
  simp only [isInternalValidOf, Bool.and_eq_true, Bool.not_eq_true'] at h
  tauto


/-- Extraction of the `initLoop` equation from `runInit` when `states` is
present. -/
theorem runInit_eq_initLoop (cfg : Config) (sts : List (String × Option StateDef))
    (hsts : cfg.states = some sts) :
    ∃ acc2 : InitAcc, runInit cfg = initLoop sts acc2 sts
      ∧ acc2.hasInvalidEventNode = false ∧ acc2.hasInvalidToState = false := by
  unfold runInit
  rw [hsts]
  dsimp only
  refine ⟨_, rfl, ?_, ?_⟩
  · by_cases h1 : truthyState sts (jsKey cfg.startState) = true
      <;> by_cases h2 : sts.length < 1 <;> simp [h1, h2, blankAcc]
  · by_cases h1 : truthyState sts (jsKey cfg.startState) = true
      <;> by_cases h2 : sts.length < 1 <;> simp [h1, h2, blankAcc]

/-- A valid run of `init` certifies the whole state list: every state node is
non-null and every declared event is non-null with a declared, truthy target
state. -/
theorem runInit_shape (cfg : Config) (sts : List (String × Option StateDef))
    (a : InitAcc) (hsts : cfg.states = some sts) (h : runInit cfg = .ok a)
    (hvalid : isInternalValidOf a = true) : statesShape sts := by
  rcases runInit_eq_initLoop cfg sts hsts with ⟨acc2, heq, _, _⟩
  rw [heq] at h
  rcases isInternalValidOf_flags a hvalid with ⟨_, _, hev, hts, _, _⟩
  intro p hp
  have hps := initLoop_ok_some sts sts acc2 a h p hp
  rcases p with ⟨n, _ | st⟩
  · simp at hps
  · refine ⟨st, rfl, ?_⟩
    intro q hq
    rcases q with ⟨qn, qv⟩
    have hnonempty : ¬ st.events.length < 1 := by
      have : st.events ≠ [] := by
        intro hnil
        rw [hnil] at hq
        simp at hq
      simpa [Nat.lt_one_iff, List.length_eq_zero] using this
    cases hqv : qv with
    | none =>
      exfalso
      subst hqv
      have htrigS : ∀ acc acc1, procState sts acc (n, some st) = .ok acc1 →
          acc1.hasInvalidEventNode = true := by
        intro acc acc1 hok
        simp only [procState] at hok
        rw [if_neg hnonempty] at hok
        have hfold : ∀ accB : InitAcc,
            (List.foldl (procEvent sts) accB st.events).hasInvalidEventNode = true := by
          intro accB
          exact foldl_procEvent_mem sts (fun a2 => a2.hasInvalidEventNode = true)
            (fun a2 q2 h2 => procEvent_eventFlag_mono sts a2 q2 h2) (qn, none)
            (fun a2 => procEvent_trig_null sts a2 qn) st.events accB hq
        cases hacts : st.actions with
        | none => rw [hacts] at hok; cases hok; exact hfold acc
        | some aa => rw [hacts] at hok; dsimp only at hok; cases hok; exact hfold _
      have : a.hasInvalidEventNode = true :=
        initLoop_mem sts (fun a2 => a2.hasInvalidEventNode = true)
          (fun acc s acc1 hok h2 => procState_eventFlag_mono sts acc s acc1 hok h2)
          (n, some st) htrigS sts acc2 a hp h
      rw [this] at hev
      exact Bool.true_eq_false ▸ hev
    | some ev =>
      subst hqv
      refine ⟨ev, rfl, ?_⟩
      by_cases hgood : ∃ t, ev.toState = some t ∧ truthyState sts t = true
      · exact hgood
      · exfalso
        have hbad : ∀ t, ev.toState = some t → truthyState sts t = false := by
          intro t ht
          by_contra hcon
          exact hgood ⟨t, ht, by simpa using hcon⟩
        have htrigS : ∀ acc acc1, procState sts acc (n, some st) = .ok acc1 →
            acc1.hasInvalidToState = true := by
          intro acc acc1 hok
          simp only [procState] at hok
          rw [if_neg hnonempty] at hok
          have hfold : ∀ accB : InitAcc,
              (List.foldl (procEvent sts) accB st.events).hasInvalidToState = true := by
            intro accB
            exact foldl_procEvent_mem sts (fun a2 => a2.hasInvalidToState = true)
              (fun a2 q2 h2 => procEvent_toStateFlag_mono sts a2 q2 h2) (qn, some ev)
              (fun a2 => procEvent_trig_toState sts a2 qn ev hbad) st.events accB hq
          cases hacts : st.actions with
          | none => rw [hacts] at hok; cases hok; exact hfold acc
          | some aa => rw [hacts] at hok; dsimp only at hok; cases hok; exact hfold _
        have : a.hasInvalidToState = true :=
          initLoop_mem sts (fun a2 => a2.hasInvalidToState = true)
            (fun acc s acc1 hok h2 => procState_toStateFlag_mono sts acc s acc1 hok h2)
            (n, some st) htrigS sts acc2 a hp h
        rw [this] at hts
        exact Bool.true_eq_false ▸ hts

end FSM

namespace FSM

/-- Unfolding of `isValid()` : true exactly when the recorded status is OK. -/
theorem isValid_iff (m : Machine) : m.isValid = true ↔ m.initStatus = Status.OK := by
  unfold Machine.isValid
  cases m.initStatus <;> simp

/-- Lookup form of state truthiness. -/
theorem truthyState_lookup (sts : List (String × Option StateDef)) (k : String)
    (h : truthyState sts k = true) : ∃ st, alookup sts k = some (some st) := by
  unfold truthyState at h
  cases hl : alookup sts k with
  | none => rw [hl] at h; simp at h
  | some v =>
    cases v with
    | none => rw [hl] at h; simp at h
    | some st => exact ⟨st, rfl⟩

/-- Invariant: the machine's `current` is the JS value `null` or names a
declared state. -/
def currentDeclared (m : Machine) : Prop :=
  m.current = none
  ∨ ∃ sts s, m.config.states = some sts ∧ m.current = some s ∧ hasStateKey sts s = true

/-- Invariant: when the machine is internally valid, its configuration has the
validated shape and `current` designates a truthy state (via the JS key
coercion of `null`). -/
def validShape (m : Machine) : Prop :=
  m.isInternalValid = true →
    ∃ sts, m.config.states = some sts
      ∧ truthyState sts (jsKey m.current) = true ∧ statesShape sts

/-- Full machine invariant, established by `newFSM` and preserved by
`handleEvent` : `isValid()` and the internal flag agree, `current` is null or
declared, and validity guarantees the validated configuration shape. -/
def MInv (m : Machine) : Prop :=
  m.isValid = m.isInternalValid ∧ currentDeclared m ∧ validShape m

/-- A machine built by the factory satisfies the invariant; moreover its
configuration is stored verbatim and, when internally valid, `current` holds
the raw `startState` value whose (coerced) lookup succeeded. -/
theorem newFSM_inv (cfg : Config) (m : Machine) (h : newFSM cfg = .ok m) :
    MInv m ∧ m.config = cfg
    ∧ (m.isInternalValid = true →
        m.current = cfg.startState
        ∧ ∃ sts, cfg.states = some sts ∧ truthyState sts (jsKey cfg.startState) = true) := by
  unfold newFSM at h
  cases hr : runInit cfg with
  | error u => rw [hr] at h; exact absurd h (by simp)
  | ok a =>
    rw [hr] at h
    cases h
    have hsync := runInit_sync cfg a hr
    have hcur := runInit_current cfg a hr
    have hvalid_current : isInternalValidOf a = true →
        a.current = cfg.startState
        ∧ ∃ sts, cfg.states = some sts ∧ truthyState sts (jsKey cfg.startState) = true := by
      intro hv
      rcases isInternalValidOf_flags a hv with ⟨hss, hsn, _, _, _, _⟩
      rcases hcur with ⟨_, hnone⟩ | ⟨sts, hsts, hgood | hbadss⟩
      · exfalso
        unfold runInit at hr
        rw [hnone] at hr
        cases hr
        simp [blankAcc] at hsn
      · exact ⟨hgood.1, sts, hsts, hgood.2.1⟩
      · rw [hbadss.2.2] at hss
        exact absurd hss (by simp)
    refine ⟨⟨?_, ?_, ?_⟩, rfl, ?_⟩
    · have h1 : (Machine.mk cfg (isInternalValidOf a) a.current a.initStatus).isValid = true
          ↔ isInternalValidOf a = true := by
        rw [isValid_iff]
        exact hsync
      exact Bool.eq_iff_iff.mpr h1
    · rcases hcur with ⟨hc, _⟩ | ⟨sts, hsts, hgood | hbadss⟩
      · exact Or.inl hc
      · rcases hgood with ⟨hc, ht, _⟩
        cases hstart : cfg.startState with
        | none => exact Or.inl (by simpa [hstart] using hc)
        | some s =>
          refine Or.inr ⟨sts, s, hsts, by simpa [hstart] using hc, ?_⟩
          rcases truthyState_lookup sts (jsKey cfg.startState) ht with ⟨st, hl⟩
          unfold hasStateKey
          rw [hstart] at hl
          simp only [jsKey] at hl
          simp [hl]
      · exact Or.inl hbadss.1
    · intro hv
      have hvc := hvalid_current hv
      rcases hvc with ⟨hc, sts, hsts, ht⟩
      refine ⟨sts, hsts, ?_, runInit_shape cfg sts a hsts hr hv⟩
      simpa [hc] using ht
    · intro hv
      exact hvalid_current hv

end FSM

namespace FSM

/-- Evaluation of a successful transition: on an internally valid machine
whose current state declares event `e` with target `t`, `handleEvent` fires
the four callback slots in order around the mutation of `current` and returns
`OK`. -/
theorem handleEvent_transition (m : Machine) (e : String)
    (sts : List (String × Option StateDef)) (curSt tgtSt : StateDef) (ev : EventDef)
    (t : String)
    (hv : m.isInternalValid = true)
    (hsts : m.config.states = some sts)
    (hlookcur : alookup sts (jsKey m.current) = some (some curSt))
    (hreg : alookup curSt.events e = some (some ev))
    (hts : ev.toState = some t)
    (hlooktgt : alookup sts t = some (some tgtSt)) :
    m.handleEvent e = .ok (.OK, { m with current := some t },
      fireCb ev.onBefore m.current
        ++ fireCb (curSt.actions.getD ⟨none, none⟩).onExit m.current
        ++ fireCb (tgtSt.actions.getD ⟨none, none⟩).onEnter (some t)
        ++ fireCb ev.onAfter (some t)) := by
  have hhk : hasStateKey sts (jsKeyU ev.toState) = true := by
    rw [hts]
    simp [jsKeyU, hasStateKey, hlooktgt]
  have hhk2 : hasStateKey sts t = true := by
    simp [hasStateKey, hlooktgt]
  unfold Machine.handleEvent Machine.canHandleEvent
  simp only [hv, Bool.true_eq_false, if_false, hsts, hlookcur, hreg, Option.isSome_some,
    hhk, if_true, hts]
  simp only [jsKeyU, hlooktgt, hhk2, if_true]

/-- Case analysis of a single `handleEvent` call on a machine satisfying the
invariant: the call never throws, preserves everything but `current`, never
reports an invalid target state, and leaves the machine unchanged on any
non-OK status. -/
theorem handleEvent_step (m : Machine) (hm : MInv m) (e : String) :
    ∃ st m1 tr, m.handleEvent e = .ok (st, m1, tr)
      ∧ m1.config = m.config ∧ m1.isInternalValid = m.isInternalValid
      ∧ m1.initStatus = m.initStatus
      ∧ MInv m1
      ∧ st ≠ .ERROR_INVALID_TARGET_STATE
      ∧ (st ≠ .OK → m1 = m)
      ∧ (m1.current = none → m.current = none)
      ∧ (st = .OK →
          ∃ sts t, m1.config.states = some sts ∧ m1.current = some t
            ∧ hasStateKey sts t = true) := by
  by_cases hv : m.isInternalValid = true
  · obtain ⟨hsync, hcurdecl, hshape⟩ := hm
    obtain ⟨sts, hsts, htruthy, hstshape⟩ := hshape hv
    obtain ⟨curSt, hlookcur⟩ := truthyState_lookup sts (jsKey m.current) htruthy
    cases hreg : alookup curSt.events e with
    | none =>
      refine ⟨.ERROR_ILLEGAL_EVENT, m, [], ?_, rfl, rfl, rfl, ⟨hsync, hcurdecl, hshape⟩,
        by decide, fun _ => rfl, fun h => h, fun h => by cases h⟩
      unfold Machine.handleEvent Machine.canHandleEvent
      simp only [hv, Bool.true_eq_false, if_false, hsts, hlookcur, hreg, Option.isSome_none]
    | some evo =>
      have hmemS : (jsKey m.current, some curSt) ∈ sts := mem_of_alookup hlookcur
      obtain ⟨curSt2, hst2, hevents⟩ := hstshape _ hmemS
      have hcur2 : curSt2 = curSt := by
        simpa using hst2.symm
      rw [hcur2] at hevents
      have hmemE : (e, evo) ∈ curSt.events := mem_of_alookup hreg
      obtain ⟨ev, hevo, t, hts, htrt⟩ := hevents _ hmemE
      subst hevo
      obtain ⟨tgtSt, hlooktgt⟩ := truthyState_lookup sts t htrt
      have hhe := handleEvent_transition m e sts curSt tgtSt ev t hv hsts hlookcur hreg hts hlooktgt
      refine ⟨.OK, { m with current := some t }, _, hhe, rfl, rfl, rfl, ?_, by decide,
        fun h => absurd rfl h, fun h => by simp at h, ?_⟩
      · refine ⟨?_, ?_, ?_⟩
        · exact hsync
        · refine Or.inr ⟨sts, t, hsts, rfl, ?_⟩
          simp [hasStateKey, hlooktgt]
        · intro _
          exact ⟨sts, hsts, by simpa [jsKey] using htrt, hstshape⟩
      · intro _
        exact ⟨sts, t, hsts, rfl, by simp [hasStateKey, hlooktgt]⟩
  · have hv' : m.isInternalValid = false := by
      simpa using hv
    refine ⟨.ERROR_IMPROPERLY_INITIALIZED, m, [], ?_, rfl, rfl, rfl, hm, by decide,
      fun _ => rfl, fun h => h, fun h => by cases h⟩
    unfold Machine.handleEvent
    simp [hv']

end FSM

namespace FSM

/-- Frame property of a single `handleEvent` call, with no assumption on the
machine: the configuration, validity flag and status are never written, and on
any non-OK status the machine (in particular `current`) is unchanged. -/
theorem handleEvent_frame (m : Machine) (e : String) (st : Status) (m1 : Machine)
    (tr : List TraceEntry) (h : m.handleEvent e = .ok (st, m1, tr)) :
    m1.config = m.config ∧ m1.isInternalValid = m.isInternalValid
    ∧ m1.initStatus = m.initStatus ∧ (st ≠ .OK → m1 = m) := by
  unfold Machine.handleEvent at h
  repeat' split at h
  all_goals try dsimp only at h
  all_goals cases h
  all_goals refine ⟨rfl, rfl, rfl, ?_⟩
  all_goals intro hcon
  all_goals first
    | rfl
    | exact absurd rfl hcon

/-- Evaluation of `canHandleEvent` on an internally valid machine whose
`current` designates a non-null state node. -/
theorem canHandleEvent_eval (m : Machine) (e : String)
    (sts : List (String × Option StateDef)) (curSt : StateDef)
    (hv : m.isInternalValid = true)
    (hsts : m.config.states = some sts)
    (hlookcur : alookup sts (jsKey m.current) = some (some curSt)) :
    m.canHandleEvent e = .ok (alookup curSt.events e).isSome := by
  unfold Machine.canHandleEvent
  simp only [hv, Bool.true_eq_false, if_false, hsts, hlookcur]

/-- Evaluation of `handleEvent` on an unknown event name: the `ILLEGAL_EVENT`
status is returned and nothing is mutated. -/
theorem handleEvent_illegal (m : Machine) (e : String)
    (sts : List (String × Option StateDef)) (curSt : StateDef)
    (hv : m.isInternalValid = true)
    (hsts : m.config.states = some sts)
    (hlookcur : alookup sts (jsKey m.current) = some (some curSt))
    (hreg : alookup curSt.events e = none) :
    m.handleEvent e = .ok (.ERROR_ILLEGAL_EVENT, m, []) := by
  unfold Machine.handleEvent Machine.canHandleEvent
  simp only [hv, Bool.true_eq_false, if_false, hsts, hlookcur, hreg, Option.isSome_none]

/-- Invariant preservation along any sequence of `handleEvent` calls: the run
never throws, configuration and validity are preserved, and no call ever
reports `ERROR_INVALID_TARGET_STATE`. -/
theorem runEvents_inv (m : Machine) (hm : MInv m) :
    ∀ evts : List String, ∃ mf stats, runEvents m evts = .ok (mf, stats)
      ∧ mf.config = m.config ∧ mf.isInternalValid = m.isInternalValid
      ∧ mf.initStatus = m.initStatus ∧ MInv mf
      ∧ (∀ s ∈ stats, s ≠ Status.ERROR_INVALID_TARGET_STATE)
      ∧ (mf.current = none → m.current = none) := by
  intro evts
  induction evts generalizing m with
  | nil =>
    exact ⟨m, [], rfl, rfl, rfl, rfl, hm, by simp, fun h => h⟩
  | cons e rest ih =>
    obtain ⟨st, m1, tr, hhe, hcfg, hvalid, hstat, hm1, hnt, _, hcn, _⟩ :=
      handleEvent_step m hm e
    obtain ⟨mf, stats, hrun, hcfg2, hvalid2, hstat2, hmf, hstats, hcn2⟩ := ih m1 hm1
    refine ⟨mf, st :: stats, ?_, hcfg2.trans hcfg, hvalid2.trans hvalid,
      hstat2.trans hstat, hmf, ?_, fun h => hcn (hcn2 h)⟩
    · unfold runEvents
      rw [hhe]
      dsimp only
      rw [hrun]
    · intro s hs
      rcases List.mem_cons.mp hs with h1 | h1
      · subst h1
        exact hnt
      · exact hstats s h1

end FSM

namespace FSM

/-- Once an error status has been recorded, the event loop never resets it to
`OK`. -/
theorem procEvent_statusNe (sts : List (String × Option StateDef)) (acc : InitAcc)
    (q : String × Option EventDef) (h : acc.initStatus ≠ Status.OK) :
    (procEvent sts acc q).initStatus ≠ Status.OK := by
  rcases q with ⟨n, _ | ev⟩
  · simp [procEvent]
  · rcases ev with ⟨ts, ob, oa⟩
    simp only [procEvent]
    cases ts
    · simp
    · dsimp only
      split
      · split
        · simp
        · simpa using h
      · simp

/-- Once an error status has been recorded, the state loop body never resets
it to `OK`. -/
theorem procState_statusNe (sts : List (String × Option StateDef)) (acc : InitAcc)
    (s : String × Option StateDef) (acc1 : InitAcc)
    (hok : procState sts acc s = .ok acc1) (h : acc.initStatus ≠ Status.OK) :
    acc1.initStatus ≠ Status.OK := by
  rcases s with ⟨n, _ | st⟩
  · simp [procState] at hok
  · simp only [procState] at hok
    split at hok
    · cases hok; exact h
    · have hfold : ∀ acc2 : InitAcc, acc2.initStatus ≠ Status.OK →
          (List.foldl (procEvent sts) acc2 st.events).initStatus ≠ Status.OK :=
        foldl_procEvent_mono sts (fun a2 => a2.initStatus ≠ Status.OK)
          (fun a2 q h2 => procEvent_statusNe sts a2 q h2) st.events
      cases hacts : st.actions with
      | none => rw [hacts] at hok; cases hok; exact hfold acc h
      | some aa =>
        rw [hacts] at hok
        dsimp only at hok
        cases hok
        apply hfold
        split
        · simp
        · simpa using h

/-- A state that declares at least one event and carries a present but
non-callable `onEnter` or `onExit` action leaves `init` with a non-OK status
after its own processing step. -/
theorem procState_badAction (sts : List (String × Option StateDef)) (acc : InitAcc)
    (n : String) (st : StateDef) (acc1 : InitAcc) (a : ActionsDef)
    (hok : procState sts acc (n, some st) = .ok acc1)
    (hne : st.events ≠ [])
    (hacts : st.actions = some a)
    (hbad : (badCb a.onEnter || badCb a.onExit) = true) :
    acc1.initStatus ≠ Status.OK := by
  have hnonempty : ¬ st.events.length < 1 := by
    simpa [Nat.lt_one_iff, List.length_eq_zero] using hne
  simp only [procState] at hok
  rw [if_neg hnonempty, hacts] at hok
  dsimp only at hok
  have hf : (acc.hasInvalidActionFunction || badCb a.onEnter || badCb a.onExit) = true := by
    rcases Bool.or_eq_true_iff.mp hbad with h1 | h1
    · simp [h1]
    · simp [h1]
  rw [hf] at hok
  cases hok
  exact foldl_procEvent_mono sts (fun a2 => a2.initStatus ≠ Status.OK)
    (fun a2 q h2 => procEvent_statusNe sts a2 q h2) st.events _ (by simp)

/-- When every state node is non-null, the state loop never throws. -/
theorem initLoop_total (sts : List (String × Option StateDef)) :
    ∀ (l : List (String × Option StateDef)) (acc : InitAcc),
      (∀ s ∈ l, s.2.isSome) → ∃ a, initLoop sts acc l = .ok a := by
  intro l
  induction l with
  | nil => intro acc _; exact ⟨acc, rfl⟩
  | cons s rest ih =>
    intro acc hall
    have hs : s.2.isSome := hall s (List.mem_cons_self _ _)
    rcases s with ⟨n, _ | st⟩
    · simp at hs
    · have hstep : ∃ acc1, procState sts acc (n, some st) = .ok acc1 := by
        simp only [procState]
        split
        · exact ⟨acc, rfl⟩
        · exact ⟨_, rfl⟩
      rcases hstep with ⟨acc1, hstep⟩
      rcases ih acc1 (fun q hq => hall q (List.mem_cons_of_mem _ hq)) with ⟨a, ha⟩
      refine ⟨a, ?_⟩
      simp only [initLoop]
      rw [hstep]
      exact ha

end FSM

namespace FSM

/-- State name "Off" of the light-switch sample configuration. -/
def sOff : String := "Off"

/-- State name "On" of the light-switch sample configuration. -/
def sOn : String := "On"

/-- Event name "turnOn" of the light-switch sample configuration. -/
def sTurnOn : String := "turnOn"

/-- Event name "turnOff" of the light-switch sample configuration. -/
def sTurnOff : String := "turnOff"

/-- State name "A" used by small test configurations. -/
def sA : String := "A"

/-- State name "B" used by small test configurations. -/
def sB : String := "B"

/-- Event name "e" used by small test configurations. -/
def sE : String := "e"

/-- The string "null", the JS property key read for the value `null`. -/
def sNull : String := "null"

/-- The light-switch sample configuration from the module's documentation. -/
def lightCfg : Config :=
  ⟨some sOff,
   some [(sOff, some ⟨[(sTurnOn, some ⟨some sOn, none, none⟩)], none⟩),
         (sOn, some ⟨[(sTurnOff, some ⟨some sOff, none, none⟩)], none⟩)]⟩

/-- The machine built from the light-switch configuration. -/
def lightM : Machine := ⟨lightCfg, true, some sOff, .OK⟩

/-- The light-switch machine after `handleEvent("turnOn")`. -/
def lightMOn : Machine := ⟨lightCfg, true, some sOn, .OK⟩

/-- A configuration whose `startState` names no declared state: validation
fails with `ERROR_INVALID_START_STATE`. -/
def badStartCfg : Config := ⟨some sB, some [(sA, some ⟨[], none⟩)]⟩

/-- The (invalid) machine built from `badStartCfg`. -/
def badStartM : Machine := ⟨badStartCfg, false, none, .ERROR_INVALID_START_STATE⟩

/-- A configuration with a null state node: construction throws. -/
def nullStateCfg : Config := ⟨some sA, some [(sA, none)]⟩

/-- A configuration with no `startState` and a state literally named "null" :
the JS lookup `states[null]` reads the key "null" and succeeds, so validation
passes while `current` stays `null`. -/
def quirkCfg : Config := ⟨none, some [(sNull, some ⟨[], none⟩)]⟩

/-- A state with no events but a present, non-callable `onEnter` action: the
empty-events warning branch skips the action check entirely. -/
def c6SkipCfg : Config :=
  ⟨some sA, some [(sA, some ⟨[], some ⟨some .nonFunc, none⟩⟩)]⟩

/-- A state with a non-callable `onEnter` action and a null event node: the
action error is recorded first, then overwritten by the event-node error. -/
def c6LateCfg : Config :=
  ⟨some sA, some [(sA, some ⟨[(sE, none)], some ⟨some .nonFunc, none⟩⟩)]⟩

/-- A state with one well-formed event and a non-callable `onEnter` action. -/
def c6St : StateDef := ⟨[(sE, some ⟨some sA, none, none⟩)], some ⟨some .nonFunc, none⟩⟩

/-- Configuration declaring `c6St` : the action error is detected. -/
def c6Cfg : Config := ⟨some sA, some [(sA, some c6St)]⟩

/-- The (invalid) machine built from `c6Cfg`. -/
def c6M : Machine := ⟨c6Cfg, false, some sA, .ERROR_INVALID_ACTION_FUNCTION⟩

/-- Event `A --e--> B` with labelled `onBefore` (1) and `onAfter` (4). -/
def c4Ev : EventDef := ⟨some sB, some (.func 1), some (.func 4)⟩

/-- Actions of state A: labelled `onExit` (2). -/
def c4AA : ActionsDef := ⟨none, some (.func 2)⟩

/-- Actions of state B: labelled `onEnter` (3). -/
def c4AB : ActionsDef := ⟨some (.func 3), none⟩

/-- State A of the callback-ordering configuration. -/
def c4StA : StateDef := ⟨[(sE, some c4Ev)], some c4AA⟩

/-- State B of the callback-ordering configuration. -/
def c4StB : StateDef := ⟨[], some c4AB⟩

/-- The state list of the callback-ordering configuration. -/
def c4Sts : List (String × Option StateDef) := [(sA, some c4StA), (sB, some c4StB)]

/-- Configuration with all four callbacks registered on `A --e--> B`. -/
def c4Cfg : Config := ⟨some sA, some c4Sts⟩

/-- The machine built from `c4Cfg`. -/
def c4M : Machine := ⟨c4Cfg, true, some sA, .OK⟩

/-- Self-transition event `A --e--> A` with labelled `onBefore` (1) and
`onAfter` (4). -/
def c9Ev : EventDef := ⟨some sA, some (.func 1), some (.func 4)⟩

/-- Actions of the self-transition state: labelled `onEnter` (3), `onExit`
(2). -/
def c9AA : ActionsDef := ⟨some (.func 3), some (.func 2)⟩

/-- The single state of the self-transition configuration. -/
def c9StA : StateDef := ⟨[(sE, some c9Ev)], some c9AA⟩

/-- The state list of the self-transition configuration. -/
def c9Sts : List (String × Option StateDef) := [(sA, some c9StA)]

/-- Configuration with a self-transition carrying all four callbacks. -/
def c9Cfg : Config := ⟨some sA, some c9Sts⟩

/-- The machine built from `c9Cfg`. -/
def c9M : Machine := ⟨c9Cfg, true, some sA, .OK⟩

end FSM

namespace FSM

/-- C1: for every machine built from a valid configuration (after any
sequence of calls), if the event name `e` is registered in the current
state's events mapping with target state `T`, then `handleEvent(e)` returns
`OK` and immediately afterwards `currentState()` equals `T`. -/
theorem claim_C1 (cfg : Config) (m0 mf : Machine) (evts : List String)
    (stats : List Status) (e T : String)
    (h0 : newFSM cfg = .ok m0)
    (hrun : runEvents m0 evts = .ok (mf, stats))
    (hv : mf.isValid = true)
    (hT : registeredTarget mf e = some T) :
    ∃ m1 tr, mf.handleEvent e = .ok (.OK, m1, tr) ∧ m1.currentState = some T := by
  obtain ⟨hinv0, _, _⟩ := newFSM_inv cfg m0 h0
  obtain ⟨mf2, stats2, hrun2, _, _, _, hminv, _, _⟩ := runEvents_inv m0 hinv0 evts
  rw [hrun] at hrun2
  cases hrun2
  obtain ⟨hsync, _, hshape⟩ := hminv
  have hvi : mf.isInternalValid = true := by rw [← hsync]; exact hv
  obtain ⟨sts, hsts, htruthy, hstshape⟩ := hshape hvi
  obtain ⟨curSt, hlookcur⟩ := truthyState_lookup sts (jsKey mf.current) htruthy
  unfold registeredTarget at hT
  rw [hsts] at hT
  dsimp only at hT
  rw [hlookcur] at hT
  dsimp only at hT
  cases hreg : alookup curSt.events e with
  | none => rw [hreg] at hT; simp at hT
  | some evo =>
    rw [hreg] at hT
    cases evo with
    | none => simp at hT
    | some ev =>
      dsimp only at hT
      obtain ⟨curSt2, hst2, hevents⟩ := hstshape _ (mem_of_alookup hlookcur)
      have hcur2 : curSt2 = curSt := by simpa using hst2.symm
      rw [hcur2] at hevents
      obtain ⟨ev2, hevo2, t, hts2, htrt⟩ := hevents _ (mem_of_alookup hreg)
      have hev2 : ev2 = ev := by simpa using hevo2.symm
      rw [hev2] at hts2
      have htT : t = T := by
        rw [hts2] at hT
        simpa using hT
      rw [htT] at hts2 htrt
      obtain ⟨tgtSt, hlooktgt⟩ := truthyState_lookup sts T htrt
      exact ⟨_, _, handleEvent_transition mf e sts curSt tgtSt ev T hvi hsts hlookcur
        hreg hts2 hlooktgt, rfl⟩

/-- Closed instance of C1 on the light-switch machine: event "turnOn" in
state "Off" targets "On". -/
theorem claim_C1_witness :
    ∃ m1 tr, lightM.handleEvent sTurnOn = .ok (.OK, m1, tr)
      ∧ m1.currentState = some sOn :=
  claim_C1 lightCfg lightM lightM [] [] sTurnOn sOn rfl rfl rfl rfl

/-- C2: on a machine whose validation failed, every `handleEvent` call
returns `ERROR_IMPROPERLY_INITIALIZED` with the machine (and so
`currentState()`) unchanged, and every `canHandleEvent` call returns
false. -/
theorem claim_C2 (cfg : Config) (m : Machine) (e : String)
    (h0 : newFSM cfg = .ok m) (hv : m.isValid = false) :
    m.handleEvent e = .ok (.ERROR_IMPROPERLY_INITIALIZED, m, [])
    ∧ m.canHandleEvent e = .ok false := by
  obtain ⟨⟨hsync, _, _⟩, _, _⟩ := newFSM_inv cfg m h0
  have hvi : m.isInternalValid = false := by rw [← hsync]; exact hv
  constructor
  · unfold Machine.handleEvent
    simp [hvi]
  · unfold Machine.canHandleEvent
    simp [hvi]

/-- Closed instance of C2 on the invalid-start-state machine. -/
theorem claim_C2_witness :
    badStartM.handleEvent sE = .ok (.ERROR_IMPROPERLY_INITIALIZED, badStartM, [])
    ∧ badStartM.canHandleEvent sE = .ok false :=
  claim_C2 badStartCfg badStartM sE rfl rfl

/-- C3: on a valid machine (after any sequence of calls), an event name not
present in the current state's events mapping makes `canHandleEvent` return
false and `handleEvent` return `ERROR_ILLEGAL_EVENT` with the machine
unchanged; and more generally every non-OK `handleEvent` outcome leaves
`currentState()` unchanged. -/
theorem claim_C3 (cfg : Config) (m0 mf : Machine) (evts : List String)
    (stats : List Status) (e : String)
    (h0 : newFSM cfg = .ok m0)
    (hrun : runEvents m0 evts = .ok (mf, stats))
    (hv : mf.isValid = true) :
    (eventRegistered mf e = false →
      mf.canHandleEvent e = .ok false
      ∧ mf.handleEvent e = .ok (.ERROR_ILLEGAL_EVENT, mf, []))
    ∧ (∀ e2 st m1 tr, mf.handleEvent e2 = .ok (st, m1, tr) → st ≠ .OK →
        m1.currentState = mf.currentState) := by
  obtain ⟨hinv0, _, _⟩ := newFSM_inv cfg m0 h0
  obtain ⟨mf2, stats2, hrun2, _, _, _, hminv, _, _⟩ := runEvents_inv m0 hinv0 evts
  rw [hrun] at hrun2
  cases hrun2
  obtain ⟨hsync, _, hshape⟩ := hminv
  have hvi : mf.isInternalValid = true := by rw [← hsync]; exact hv
  obtain ⟨sts, hsts, htruthy, _⟩ := hshape hvi
  obtain ⟨curSt, hlookcur⟩ := truthyState_lookup sts (jsKey mf.current) htruthy
  constructor
  · intro hreg0
    unfold eventRegistered at hreg0
    rw [hsts] at hreg0
    dsimp only at hreg0
    rw [hlookcur] at hreg0
    dsimp only at hreg0
    have hreg : alookup curSt.events e = none := Option.not_isSome_iff_eq_none.mp (by
      rw [hreg0]
      simp)
    constructor
    · rw [canHandleEvent_eval mf e sts curSt hvi hsts hlookcur, hreg]
      rfl
    · exact handleEvent_illegal mf e sts curSt hvi hsts hlookcur hreg
  · intro e2 st m1 tr h hne
    obtain ⟨_, _, _, hfr⟩ := handleEvent_frame mf e2 st m1 tr h
    rw [hfr hne]

/-- Closed instance of C3 on the light-switch machine: "turnOff" is unknown
in state "Off". -/
theorem claim_C3_witness :
    (eventRegistered lightM sTurnOff = false →
      lightM.canHandleEvent sTurnOff = .ok false
      ∧ lightM.handleEvent sTurnOff = .ok (.ERROR_ILLEGAL_EVENT, lightM, []))
    ∧ (∀ e2 st m1 tr, lightM.handleEvent e2 = .ok (st, m1, tr) → st ≠ .OK →
        m1.currentState = lightM.currentState) :=
  claim_C3 lightCfg lightM lightM [] [] sTurnOff rfl rfl rfl

end FSM

namespace FSM

/-- C4: on a valid machine in state `A`, a legal event `A --e--> B` with all
four callbacks registered fires them in exactly the order onBefore, onExit of
`A`, onEnter of `B`, onAfter, returns `OK`, and `currentState()` reads `A`
during the first two calls and already `B` during the last two. -/
theorem claim_C4 (cfg : Config) (m0 mf : Machine) (evts : List String)
    (stats : List Status) (A B e : String) (i1 i2 i3 i4 : Nat)
    (sts : List (String × Option StateDef)) (stA stB : StateDef) (ev : EventDef)
    (aA aB : ActionsDef)
    (h0 : newFSM cfg = .ok m0)
    (hrun : runEvents m0 evts = .ok (mf, stats))
    (hv : mf.isValid = true)
    (hsts : mf.config.states = some sts)
    (hcur : mf.current = some A)
    (hA : alookup sts A = some (some stA))
    (hB : alookup sts B = some (some stB))
    (he : alookup stA.events e = some (some ev))
    (hts : ev.toState = some B)
    (hob : ev.onBefore = some (.func i1))
    (hoa : ev.onAfter = some (.func i4))
    (haA : stA.actions = some aA) (hexA : aA.onExit = some (.func i2))
    (haB : stB.actions = some aB) (henB : aB.onEnter = some (.func i3)) :
    ∃ m1, mf.handleEvent e
        = .ok (.OK, m1, [⟨i1, some A⟩, ⟨i2, some A⟩, ⟨i3, some B⟩, ⟨i4, some B⟩])
      ∧ m1.currentState = some B := by
  obtain ⟨hinv0, _, _⟩ := newFSM_inv cfg m0 h0
  obtain ⟨mf2, stats2, hrun2, _, _, _, hminv, _, _⟩ := runEvents_inv m0 hinv0 evts
  rw [hrun] at hrun2
  cases hrun2
  obtain ⟨hsync, _, _⟩ := hminv
  have hvi : mf.isInternalValid = true := by rw [← hsync]; exact hv
  have hlookcur : alookup sts (jsKey mf.current) = some (some stA) := by
    rw [hcur]
    exact hA
  have hhe := handleEvent_transition mf e sts stA stB ev B hvi hsts hlookcur he hts hB
  rw [hcur, haA, haB] at hhe
  simp only [Option.getD_some, hob, hoa, hexA, henB, fireCb] at hhe
  exact ⟨_, hhe, rfl⟩

/-- Closed instance of C4 on the two-state configuration with labelled
callbacks 1-4. -/
theorem claim_C4_witness :
    ∃ m1, c4M.handleEvent sE
        = .ok (.OK, m1, [⟨1, some sA⟩, ⟨2, some sA⟩, ⟨3, some sB⟩, ⟨4, some sB⟩])
      ∧ m1.currentState = some sB :=
  claim_C4 c4Cfg c4M c4M [] [] sA sB sE 1 2 3 4 c4Sts c4StA c4StB c4Ev c4AA c4AB
    rfl rfl rfl rfl rfl rfl rfl rfl rfl rfl rfl rfl rfl rfl rfl

/-- C9: a self-transition `A --e--> A` on a valid machine is not a no-op: it
still fires onBefore, onExit of `A`, onEnter of `A` and onAfter (all that are
present) and returns `OK`. -/
theorem claim_C9 (cfg : Config) (m0 mf : Machine) (evts : List String)
    (stats : List Status) (A e : String) (i1 i2 i3 i4 : Nat)
    (sts : List (String × Option StateDef)) (stA : StateDef) (ev : EventDef)
    (aA : ActionsDef)
    (h0 : newFSM cfg = .ok m0)
    (hrun : runEvents m0 evts = .ok (mf, stats))
    (hv : mf.isValid = true)
    (hsts : mf.config.states = some sts)
    (hcur : mf.current = some A)
    (hA : alookup sts A = some (some stA))
    (he : alookup stA.events e = some (some ev))
    (hts : ev.toState = some A)
    (hob : ev.onBefore = some (.func i1))
    (hoa : ev.onAfter = some (.func i4))
    (haA : stA.actions = some aA)
    (hexA : aA.onExit = some (.func i2))
    (henA : aA.onEnter = some (.func i3)) :
    ∃ m1, mf.handleEvent e
        = .ok (.OK, m1, [⟨i1, some A⟩, ⟨i2, some A⟩, ⟨i3, some A⟩, ⟨i4, some A⟩])
      ∧ m1.currentState = some A := by
  obtain ⟨hinv0, _, _⟩ := newFSM_inv cfg m0 h0
  obtain ⟨mf2, stats2, hrun2, _, _, _, hminv, _, _⟩ := runEvents_inv m0 hinv0 evts
  rw [hrun] at hrun2
  cases hrun2
  obtain ⟨hsync, _, _⟩ := hminv
  have hvi : mf.isInternalValid = true := by rw [← hsync]; exact hv
  have hlookcur : alookup sts (jsKey mf.current) = some (some stA) := by
    rw [hcur]
    exact hA
  have hhe := handleEvent_transition mf e sts stA stA ev A hvi hsts hlookcur he hts hA
  rw [hcur, haA] at hhe
  simp only [Option.getD_some, hob, hoa, hexA, henA, fireCb] at hhe
  exact ⟨_, hhe, rfl⟩

/-- Closed instance of C9 on the one-state self-transition configuration with
labelled callbacks 1-4. -/
theorem claim_C9_witness :
    ∃ m1, c9M.handleEvent sE
        = .ok (.OK, m1, [⟨1, some sA⟩, ⟨2, some sA⟩, ⟨3, some sA⟩, ⟨4, some sA⟩])
      ∧ m1.currentState = some sA :=
  claim_C9 c9Cfg c9M c9M [] [] sA sE 1 2 3 4 c9Sts c9StA c9Ev c9AA
    rfl rfl rfl rfl rfl rfl rfl rfl rfl rfl rfl rfl rfl

end FSM

namespace FSM

/-- C5 counterexample: a configuration containing a state whose definition is
null makes construction throw (the source reads `state.events` on `null`)
instead of returning a degraded machine. -/
theorem claim_C5_cex : newFSM nullStateCfg = .error () := rfl

/-- C5 (amended): for every configuration in which no declared state
definition is null, construction returns a Machine and never fails fatally;
validation problems are reported only through `status()` and `isValid()`. A
configuration with a null state definition instead throws a TypeError. -/
theorem claim_C5 (cfg : Config)
    (hok : ∀ sts, cfg.states = some sts → ∀ s ∈ sts, s.2.isSome) :
    ∃ m : Machine, newFSM cfg = .ok m := by
  have hinit : ∃ a, runInit cfg = .ok a := by
    unfold runInit
    cases hsts : cfg.states with
    | none => exact ⟨_, rfl⟩
    | some sts =>
      dsimp only
      exact initLoop_total sts sts _ (hok sts hsts)
  rcases hinit with ⟨a, ha⟩
  unfold newFSM
  rw [ha]
  exact ⟨_, rfl⟩

/-- Closed instance of the amended C5 on the light-switch configuration. -/
theorem claim_C5_witness : ∃ m : Machine, newFSM lightCfg = .ok m :=
  claim_C5 lightCfg (by
    intro sts hsts s hs
    have hsts2 : sts
        = [(sOff, some ⟨[(sTurnOn, some ⟨some sOn, none, none⟩)], none⟩),
           (sOn, some ⟨[(sTurnOff, some ⟨some sOff, none, none⟩)], none⟩)] := by
      have : lightCfg.states = some sts := hsts
      simpa [lightCfg] using this.symm
    subst hsts2
    fin_cases hs <;> simp)

/-- C6 counterexample: the claim fails in two ways on the source. First, a
state with an empty events mapping but a non-callable `onEnter` is skipped by
validation entirely, so the machine is reported valid. Second, when the state
does declare events, a later-detected error (here a null event node)
overwrites the `ERROR_INVALID_ACTION_FUNCTION` status. -/
theorem claim_C6_cex :
    (∃ m, newFSM c6SkipCfg = .ok m ∧ m.isValid = true ∧ m.status = Status.OK)
    ∧ (∃ m, newFSM c6LateCfg = .ok m ∧ m.isValid = false
        ∧ m.status = Status.ERROR_INVALID_EVENT_NODE) :=
  ⟨⟨⟨c6SkipCfg, true, some sA, .OK⟩, rfl, rfl, rfl⟩,
   ⟨⟨c6LateCfg, false, some sA, .ERROR_INVALID_EVENT_NODE⟩, rfl, rfl, rfl⟩⟩

/-- C6 (amended): during construction, for each declared state that declares
at least one event, if `actions.onEnter` or `actions.onExit` is present but
not callable then `isValid()` returns false (the `ERROR_INVALID_ACTION_FUNCTION`
status is recorded, though a later-detected validation error may overwrite
`status()`); states whose events mapping is empty are skipped by this check
entirely. -/
theorem claim_C6 (cfg : Config) (m : Machine) (sts : List (String × Option StateDef))
    (n : String) (st : StateDef) (a : ActionsDef)
    (h0 : newFSM cfg = .ok m)
    (hsts : cfg.states = some sts)
    (hmem : (n, some st) ∈ sts)
    (hne : st.events ≠ [])
    (hacts : st.actions = some a)
    (hbad : (badCb a.onEnter || badCb a.onExit) = true) :
    m.isValid = false := by
  unfold newFSM at h0
  cases hr : runInit cfg with
  | error u => rw [hr] at h0; exact absurd h0 (by simp)
  | ok aF =>
    rw [hr] at h0
    cases h0
    obtain ⟨acc2, heq, _, _⟩ := runInit_eq_initLoop cfg sts hsts
    rw [heq] at hr
    have hne2 : aF.initStatus ≠ Status.OK :=
      initLoop_mem sts (fun a2 => a2.initStatus ≠ Status.OK)
        (fun acc s acc1 hok h2 => procState_statusNe sts acc s acc1 hok h2)
        (n, some st)
        (fun acc acc1 hok => procState_badAction sts acc n st acc1 a hok hne hacts hbad)
        sts acc2 aF hmem hr
    rcases hb : (Machine.mk cfg (isInternalValidOf aF) aF.current aF.initStatus).isValid with _ | _
    · rfl
    · exfalso
      exact hne2 ((isValid_iff _).mp hb)

/-- Closed instance of the amended C6: a state with one event and a
non-callable `onEnter` yields an invalid machine. -/
theorem claim_C6_witness : c6M.isValid = false :=
  claim_C6 c6Cfg c6M [(sA, some c6St)] sA c6St ⟨some .nonFunc, none⟩
    rfl rfl (by simp) (by simp [c6St]) rfl rfl

end FSM

namespace FSM

/-- C7 counterexample: a valid machine can report `currentState() = null`.
With no (string) `startState` and a state literally named "null", the JS
lookup `states[null]` reads the key "null" and succeeds, so validation
passes while `current` keeps the value `null`. -/
theorem claim_C7_cex :
    ∃ m, newFSM quirkCfg = .ok m ∧ m.isValid = true ∧ m.currentState = none :=
  ⟨⟨quirkCfg, true, none, .OK⟩, rfl, rfl, rfl⟩

/-- C7 (amended): after construction and any sequence of calls,
`currentState()` is either null or a key present in the states mapping, and
every successful `handleEvent` sets `current` to a declared state. However,
`currentState()` can be null even on a machine whose validation succeeded:
exactly when `startState` is not a string while the (JS-coerced) lookup of the
key "null" finds a declared state named "null". -/
theorem claim_C7 (cfg : Config) (m0 mf : Machine) (evts : List String)
    (stats : List Status)
    (h0 : newFSM cfg = .ok m0)
    (hrun : runEvents m0 evts = .ok (mf, stats)) :
    (mf.currentState = none
      ∨ ∃ sts s, cfg.states = some sts ∧ mf.currentState = some s
          ∧ hasStateKey sts s = true)
    ∧ (∀ e st m1 tr, mf.handleEvent e = .ok (st, m1, tr) → st = .OK →
        ∃ sts t, cfg.states = some sts ∧ m1.currentState = some t
          ∧ hasStateKey sts t = true)
    ∧ (mf.isValid = true → mf.currentState = none →
        cfg.startState = none
        ∧ ∃ sts, cfg.states = some sts ∧ truthyState sts (jsKey none) = true) := by
  obtain ⟨hinv0, hcfg0, hstart0⟩ := newFSM_inv cfg m0 h0
  obtain ⟨mf2, stats2, hrun2, hcfgf, hvalf, hstatf, hminv, _, hcn⟩ :=
    runEvents_inv m0 hinv0 evts
  rw [hrun] at hrun2
  cases hrun2
  have hcfg : mf.config = cfg := hcfgf.trans hcfg0
  refine ⟨?_, ?_, ?_⟩
  · obtain ⟨_, hdecl, _⟩ := hminv
    rcases hdecl with h | ⟨sts, s, hsts, hcur, hk⟩
    · exact Or.inl h
    · exact Or.inr ⟨sts, s, by rw [← hcfg]; exact hsts, hcur, hk⟩
  · intro e st m1 tr h hOK
    obtain ⟨st2, m12, tr2, hhe2, hc1, _, _, _, _, _, _, hOKfact⟩ :=
      handleEvent_step mf hminv e
    rw [h] at hhe2
    cases hhe2
    obtain ⟨sts, t, hsts1, hcur1, hk1⟩ := hOKfact hOK
    refine ⟨sts, t, ?_, hcur1, hk1⟩
    rw [← hcfg, ← hc1]
    exact hsts1
  · intro hvf hcn0
    have hv0 : m0.isValid = true := by
      have hvv : mf.isValid = m0.isValid := by
        unfold Machine.isValid
        rw [hstatf]
      rw [← hvv]
      exact hvf
    obtain ⟨hsync0, _, _⟩ := hinv0
    have hvi0 : m0.isInternalValid = true := by rw [← hsync0]; exact hv0
    obtain ⟨hc0, sts, hsts, ht⟩ := hstart0 hvi0
    have hm0none : m0.current = none := hcn hcn0
    have hstart_none : cfg.startState = none := by rw [← hc0]; exact hm0none
    refine ⟨hstart_none, sts, hsts, ?_⟩
    rw [hstart_none] at ht
    exact ht

/-- Closed instance of the amended C7 on the light-switch machine. -/
theorem claim_C7_witness :
    (lightM.currentState = none
      ∨ ∃ sts s, lightCfg.states = some sts ∧ lightM.currentState = some s
          ∧ hasStateKey sts s = true)
    ∧ (∀ e st m1 tr, lightM.handleEvent e = .ok (st, m1, tr) → st = .OK →
        ∃ sts t, lightCfg.states = some sts ∧ m1.currentState = some t
          ∧ hasStateKey sts t = true)
    ∧ (lightM.isValid = true → lightM.currentState = none →
        lightCfg.startState = none
        ∧ ∃ sts, lightCfg.states = some sts ∧ truthyState sts (jsKey none) = true) :=
  claim_C7 lightCfg lightM lightM [] [] rfl rfl

/-- C8: `handleEvent` never writes the configuration, the validity flag or the
status code; the only field it can change is `current`, and on any non-OK
outcome the machine is returned entirely unchanged. The query methods
(`isValid`, `status`, `currentState`, `canHandleEvent`) are pure functions of
the machine in this embedding, mirroring that the source closures only read
state. -/
theorem claim_C8 (m : Machine) (e : String) (st : Status) (m1 : Machine)
    (tr : List TraceEntry) (h : m.handleEvent e = .ok (st, m1, tr)) :
    m1.config = m.config ∧ m1.isInternalValid = m.isInternalValid
    ∧ m1.initStatus = m.initStatus ∧ (st ≠ .OK → m1 = m) :=
  handleEvent_frame m e st m1 tr h

/-- Closed instance of C8 on the light-switch transition Off to On. -/
theorem claim_C8_witness :
    lightMOn.config = lightM.config
    ∧ lightMOn.isInternalValid = lightM.isInternalValid
    ∧ lightMOn.initStatus = lightM.initStatus
    ∧ (Status.OK ≠ Status.OK → lightMOn = lightM) :=
  claim_C8 lightM sTurnOn .OK lightMOn [] rfl

/-- C10: starting from any machine built from a valid configuration, no
sequence of `handleEvent` calls ever returns `ERROR_INVALID_TARGET_STATE` :
construction has already verified every declared target state, and the
configuration is never mutated afterwards. -/
theorem claim_C10 (cfg : Config) (m0 : Machine) (evts : List String)
    (h0 : newFSM cfg = .ok m0) (hv : m0.isValid = true) :
    ∃ mf stats, runEvents m0 evts = .ok (mf, stats)
      ∧ ∀ s ∈ stats, s ≠ Status.ERROR_INVALID_TARGET_STATE := by
  obtain ⟨hinv0, _, _⟩ := newFSM_inv cfg m0 h0
  obtain ⟨mf, stats, hrun, _, _, _, _, hstats, _⟩ := runEvents_inv m0 hinv0 evts
  exact ⟨mf, stats, hrun, hstats⟩

/-- Closed instance of C10 on the light-switch machine with a legal and an
illegal event. -/
theorem claim_C10_witness :
    ∃ mf stats, runEvents lightM [sTurnOn, sTurnOn] = .ok (mf, stats)
      ∧ ∀ s ∈ stats, s ≠ Status.ERROR_INVALID_TARGET_STATE :=
  claim_C10 lightCfg lightM [sTurnOn, sTurnOn] rfl rfl

end FSM
